import Mathlib

/-!
Verification of the NachOS storage-indexing core and MLFQ scheduler.

The definitions below are a shallow embedding of the repository's code:
the filesystem variants (the linked-chain `FileHeader`/`LinkedBlock` of
filehdr.cc and the indirection-tree `FileHeader`/`SingleIndirectBlock`/
`DoublyIndirectBlock`/`TripleIndirectBlock` of the MP4 variant) and the
three-band scheduler of scheduler.cc.  C `int` values are embedded as
`Int`; C arrays are embedded as `List Int` (fixed length) or as total
maps `Int → Int` with explicit bounds where the declared size is not in
the sources; fallible operations (C `ASSERT`) return `Option`.
-/

namespace NachOS

/-! ### Constants

`SectorSize` comes from disk.h, which is not among the sources.
Modelled from the spec: the disk has a fixed sector size (NachOS's
128 bytes), so an index block holds `SectorSize / sizeof(int) = 32`
sector addresses (`MaxBlocks`, the spec's per-level capacity `B`). -/

def SectorSize : Int := 128

def MaxBlocks : Int := 32

/-- The `EMPTY_BLOCK` / `EmptyBlock` sentinel for an unallocated slot. -/
def EmptyBlock : Int := -1

/-- Modelled from the spec: `NumDirect`, the number of direct sector
pointers of the linked-chain file header, is not in the sources
(filehdr.h is missing); the serialization loops of `FetchFrom` /
`WriteBack` in filehdr.cc store exactly the words 3..31 of the header
sector as direct pointers, so `NumDirect = 29`. -/
def NumDirect : Int := 29

/-- Modelled from the spec: `NumLinkedDataSectors`, the data capacity
of one `LinkedBlock`, is not in the sources (filehdr.h is missing); the
serialization of `LinkedBlock::FetchFrom`/`WriteBack` stores word 0 as
the next pointer and words 1..31 as data pointers, so it is 31. -/
def NumLinkedDataSectors : Int := 31

/-- Modelled from the spec: `NumIndirect` of the MP4 tree variant is
not in the sources (its filehdr.h is missing); the root serialization
`data[i + 2] = dataSectors[i]` for `1 <= i < NumIndirect` fills the
32-word header sector exactly when `NumIndirect = 30`. -/
def NumIndirect : Int := 30

/-! ### Free-sector bitmap

Modelled from the spec: the persistent bitmap is an external
collaborator (pbitmap is not among the sources), consumed only through
`FindAndSet`, `Clear`, `Test` and `NumClear`.  A sector address is a
non-negative integer; `Clear` of an address outside the bitmap's range
is an invariant violation and is fatal (`none`). -/

structure Bitmap where
  bits : List Bool
  deriving DecidableEq

/-- Number of clear (free) bits. -/
def numClear (b : Bitmap) : Int := Int.ofNat (b.bits.count false)

/-- Embeds `Test`: whether sector `i` is marked used. -/
def bmTest (b : Bitmap) (i : Int) : Bool :=
  if i < 0 then false else b.bits.getD i.toNat false

/-- Embeds `FindAndSet`: mark the first clear bit used and return its index,
or return `-1` leaving the bitmap unchanged when no bit is clear. -/
def findAndSet (b : Bitmap) : Int × Bitmap :=
  match b.bits.findIdx? (fun x => !x) with
  | some n => (Int.ofNat n, ⟨b.bits.set n true⟩)
  | none => (-1, b)

/-- Embeds `Clear`: mark sector `i` free; fatal (`none`) outside the range. -/
def bmClear (b : Bitmap) (i : Int) : Option Bitmap :=
  if 0 ≤ i ∧ i.toNat < b.bits.length then some ⟨b.bits.set i.toNat false⟩
  else none

/-- Embeds `divRoundUp` from the (absent) utility header.  Modelled from the
spec: `numSectors = ceil(numBytes / sectorSize)`; written with C
truncating division exactly as the NachOS macro computes it. -/
def divRoundUp (n s : Int) : Int :=
  Int.tdiv n s + (if 0 < Int.tmod n s then 1 else 0)

/-! ### MP4 `SingleIndirectBlock` (fileblock.cc) -/

/-- Loop of `SingleIndirectBlock::Allocate` (fileblock.cc lines 37-44):
walk slots `i`, skip populated ones, fill sentinel slots from
`FindAndSet`, assert the claimed sector is not the sentinel.  `rem` is
the number of loop iterations left (`MAX_BLOCKS` at the top call). -/
def sibAllocLoop (n : Int) (blk : List Int) (b : Bitmap) (alloc : Int)
    (i : Nat) : Nat → Option (Int × List Int × Bitmap)
  | 0 => some (alloc, blk, b)
  | rem + 1 =>
    if alloc < n then
      if blk.getD i (-1) ≠ EmptyBlock then
        sibAllocLoop n blk b alloc (i + 1) rem
      else
        let p := findAndSet b
        if p.1 = EmptyBlock then none
        else sibAllocLoop n (blk.set i p.1) p.2 (alloc + 1) (i + 1) rem
    else some (alloc, blk, b)

/-- Embeds `SingleIndirectBlock::Allocate` (fileblock.cc lines 26-48): fails
with `-1` when `numSectors` is negative or exceeds the free count,
otherwise fills sentinel slots and returns the number allocated. -/
def sibAllocate (blk : List Int) (b : Bitmap) (numSectors : Int) :
    Option (Int × List Int × Bitmap) :=
  if numSectors < 0 then some (-1, blk, b)
  else if numClear b < numSectors then some (-1, blk, b)
  else sibAllocLoop numSectors blk b 0 0 32

/-- Embeds `SingleIndirectBlock::Deallocate` (fileblock.cc lines 50-62): clear
every non-sentinel slot, asserting it was marked used. -/
def sibDeallocate (blk : List Int) (b : Bitmap) : Option Bitmap :=
  blk.foldlM
    (fun bb sector =>
      if sector = EmptyBlock then some bb
      else if bmTest bb sector then bmClear bb sector
      else none)
    b

/-! ### Linked-chain variant (filehdr.cc of part_000): `LinkedBlock` -/

/-- In-memory `LinkedBlock` chain: 31 data slots, the `nextBlock`
sector address, and the in-core pointer to the next chain element. -/
inductive LB where
  | mk (dataSectors : List Int) (nextBlock : Int) (next : Option LB)

def LB.dataSectors : LB → List Int
  | .mk d _ _ => d

def LB.nextBlock : LB → Int
  | .mk _ n _ => n

def LB.next : LB → Option LB
  | .mk _ _ c => c

/-- A freshly constructed `LinkedBlock()`: all slots sentinel. -/
def lbInit : LB := .mk (List.replicate 31 (-1)) (-1) none

/-- The shared allocation loop shape
`for (i = 0; i < CAP && alloc < n; i++, alloc++) slots[i] = FindAndSet()`
of `FileHeader::Allocate` (direct slots) and `LinkedBlock::Allocate`
(local slots); `i` and `alloc` stay in lockstep.  `rem` is the number
of slots not yet considered (the capacity at the top call). -/
def directAllocLoop (n : Int) (slots : List Int) (b : Bitmap)
    (alloc : Int) (i : Nat) : Nat → List Int × Int × Bitmap
  | 0 => (slots, alloc, b)
  | rem + 1 =>
    if alloc < n then
      let p := findAndSet b
      directAllocLoop n (slots.set i p.1) p.2 (alloc + 1) (i + 1) rem
    else (slots, alloc, b)

/-- Embeds `LinkedBlock::Allocate(bitMap, numSector, sector)`: asserts
`sector >= 0`, returns immediately on a zero demand, fills the local
slots, and if demand remains claims a sector for a successor block and
recurses into it with the remaining demand. -/
def lbAllocate (b : Bitmap) (numSector : Int) (sector : Int) :
    Option (LB × Bitmap) :=
  if sector < 0 then none
  else if numSector = 0 then some (lbInit, b)
  else
    match hres : directAllocLoop numSector (List.replicate 31 (-1)) b 0 0 31 with
    | (slots, alloc, b1) =>
      if h : alloc < numSector then
        let p := findAndSet b1
        match lbAllocate p.2 (numSector - alloc) p.1 with
        | none => none
        | some (child, b2) => some (.mk slots p.1 (some child), b2)
      else some (.mk slots (-1) none, b1)
termination_by numSector.toNat
decreasing_by
  have key : ∀ (rem : Nat) (n : Int) (sl : List Int) (bb : Bitmap)
      (alloc : Int) (i : Nat),
      (directAllocLoop n sl bb alloc i rem).2.1 < n →
      (directAllocLoop n sl bb alloc i rem).2.1 = alloc + rem := by
    intro rem
    induction rem with
    | zero => intro n sl bb alloc i _; simp [directAllocLoop]
    | succ m ih =>
      intro n sl bb alloc i hlt
      by_cases hc : alloc < n
      · simp only [directAllocLoop, if_pos hc] at hlt ⊢
        have := ih n _ _ _ _ hlt
        omega
      · simp only [directAllocLoop, if_neg hc] at hlt
        exact absurd hlt hc
  have hlt : (directAllocLoop numSector (List.replicate 31 (-1)) b 0 0 31).2.1 <
      numSector := by rw [hres]; exact h
  have h31 := key 31 numSector (List.replicate 31 (-1)) b 0 0 hlt
  rw [hres] at h31
  simp only at h31
  omega

/-- Early-exit clearing loop of `LinkedBlock::Deallocate`:
`for (i = 0; i < NumLinkedDataSectors && dataSectors[i] >= 0; i++)
Clear(dataSectors[i])`. -/
def lbClearSlots : List Int → Bitmap → Option Bitmap
  | [], b => some b
  | s :: rest, b =>
    if 0 ≤ s then
      match bmClear b s with
      | none => none
      | some b1 => lbClearSlots rest b1
    else some b

/-- Embeds `LinkedBlock::Deallocate(bitMap, sector)`: asserts `sector >= 0`,
clears the local slots up to the first sentinel, clears the block's own
sector, then recurses into the successor when `nextBlock >= 0`
(asserting the in-core pointer is present). -/
def lbDeallocate : LB → Bitmap → Int → Option Bitmap
  | .mk slots nxtB nxt, b, sector =>
    if sector < 0 then none
    else
      match lbClearSlots slots b with
      | none => none
      | some b1 =>
        match bmClear b1 sector with
        | none => none
        | some b2 =>
          if 0 ≤ nxtB then
            match nxt with
            | none => none
            | some child => lbDeallocate child b2 nxtB
          else some b2

/-! ### Linked-chain variant: `FileHeader` (filehdr.cc of part_000) -/

structure FileHeaderL where
  numBytes : Int
  numSectors : Int
  nextBlock : Int
  dataSectors : List Int
  nxtPtr : Option LB

/-- The `FileHeader()` constructor: sentinel metadata, 29 sentinel
direct slots, no chain. -/
def fhInit : FileHeaderL := ⟨-1, -1, -1, List.replicate 29 (-1), none⟩

/-- Embeds `FileHeader::Allocate(freeMap, fileSize)` of the linked variant:
sets `numBytes`/`numSectors`, fails (`FALSE`) when the free count is
short, fills direct slots, and when demand remains claims a chain head
sector and delegates to `LinkedBlock::Allocate` — passing the full
`numSectors` (not the remaining demand), exactly as the source does. -/
def fhAllocate (h : FileHeaderL) (b : Bitmap) (fileSize : Int) :
    Option (Bool × FileHeaderL × Bitmap) :=
  let h0 := { h with numBytes := fileSize,
                     numSectors := divRoundUp fileSize SectorSize }
  if numClear b < h0.numSectors then some (false, h0, b)
  else
    let r := directAllocLoop h0.numSectors h0.dataSectors b 0 0 29
    let h1 := { h0 with dataSectors := r.1 }
    if r.2.1 < h0.numSectors then
      let p := findAndSet r.2.2
      match lbAllocate p.2 h0.numSectors p.1 with
      | none => none
      | some (nxt, b2) =>
        some (true, { h1 with nextBlock := p.1, nxtPtr := some nxt }, b2)
    else some (true, h1, r.2.2)

/-- Embeds `FileHeader::Deallocate(freeMap)` of the linked variant: clears all
29 direct slots unconditionally (including sentinel entries), then
recurses into the chain when `nextBlock >= 0`. -/
def fhDeallocate (h : FileHeaderL) (b : Bitmap) : Option Bitmap :=
  match h.dataSectors.foldlM (fun bb s => bmClear bb s) b with
  | none => none
  | some b1 =>
    if 0 ≤ h.nextBlock then
      match h.nxtPtr with
      | none => none
      | some lb => lbDeallocate lb b1 h.nextBlock
    else some b1

/-! ### Disk

The synchronous disk collaborator (spec section 6): `ReadSector` /
`WriteSector` move one 32-word sector. -/

def Disk : Type := Int → List Int

/-- A blank disk: every sector holds 32 sentinel words. -/
def diskInit : Disk := fun _ => List.replicate 32 (-1)

def writeSector (d : Disk) (s : Int) (v : List Int) : Disk :=
  fun x => if x = s then v else d x

/-- Word `m` of sector `s` (all source reads use `0 <= m < 32`). -/
def readW (d : Disk) (s : Int) (m : Int) : Int :=
  if 0 ≤ m then (d s).getD m.toNat (-1) else -1

/-- Pointwise update of an embedded C array. -/
def updF (f : Int → Int) (i v : Int) : Int → Int :=
  fun x => if x = i then v else f x

/-- Bounds-checked read of an embedded C array: `none` models an
out-of-bounds (undefined-behaviour) access. -/
def arrGet (f : Int → Int) (size i : Int) : Option Int :=
  if 0 ≤ i ∧ i < size then some (f i) else none

/-! ### MP4 `IndirectBlock` fetch and `DoublyIndirectBlock::Deallocate` -/

/-- Embeds `IndirectBlock::FetchFrom(sector)` exactly as written in
fileblock.cc lines 20-23: it calls `WriteSector(sector, (char*)this)`,
i.e. it writes the in-memory block's 32 slot words over the sector
instead of reading the sector.  The in-memory block is unchanged; the
disk is returned updated. -/
def ibFetchFrom (blk : List Int) (d : Disk) (sector : Int) : Disk :=
  writeSector d sector blk

/-- Embeds `DoublyIndirectBlock::Deallocate(freeMap)` (fileblock.cc lines
107-125): for every non-sentinel slot, assert the slot's sector is
used, construct a fresh child `SingleIndirectBlock`, `FetchFrom` the
slot's sector (the write above), deallocate the child, re-assert the
sector is used, and clear it. -/
def dibDeallocate (blk : List Int) (d : Disk) (b : Bitmap) :
    Option (Disk × Bitmap) :=
  blk.foldlM
    (fun (st : Disk × Bitmap) sector =>
      if sector = EmptyBlock then some st
      else if bmTest st.2 sector then
        let child : List Int := List.replicate 32 (-1)
        let d1 := ibFetchFrom child st.1 sector
        match sibDeallocate child st.2 with
        | none => none
        | some b1 =>
          if bmTest b1 sector then
            match bmClear b1 sector with
            | none => none
            | some b2 => some (d1, b2)
          else none
      else none)
    (d, b)

/-! ### MP4 `FileHeader` (filehdr.cc of NachOS-4.0_MP4)

The header keeps a flattened tree of slot words `dataSectors` and the
virtual-to-flat map `virDataSectors`; their declared C sizes are not in
the sources (filehdr.h is missing).  Modelled from the spec: the flat
index arithmetic `((i*32+j)*32+k)*32+l` with `i < 30`, `j,k,l < 32`
needs `983040` words, and at most `29*31*31*31` data sectors are
addressable, so the arrays are embedded as total maps with those
bounds. -/

def numTreeSlots : Int := 983040

def numVirSlots : Int := 863940

structure FileHeaderT where
  numBytes : Int
  numSectors : Int
  dataSectors : Int → Int
  virDataSectors : Int → Int

/-- The MP4 `FileHeader()` constructor: sentinel metadata, both arrays
memset to the sentinel. -/
def mp4Init : FileHeaderT :=
  ⟨-1, -1, fun _ => -1, fun _ => -1⟩

/-- Embeds `FileHeader::FileLength()`. -/
def mp4FileLength (h : FileHeaderT) : Int := h.numBytes

/-- Embeds `FileHeader::ByteToSector(offset)` (filehdr.cc lines 266-271):
`dataSectors[virDataSectors[offset / SectorSize]]`, with each array
access bounds-checked (`none` = undefined out-of-range access). -/
def mp4ByteToSector (h : FileHeaderT) (offset : Int) : Option Int :=
  match arrGet h.virDataSectors numVirSlots (Int.tdiv offset SectorSize) with
  | none => none
  | some v => arrGet h.dataSectors numTreeSlots v

/-- Allocation state of `FileHeader::Allocate`: the two arrays, the
`allocated` counter and the bitmap. -/
structure Mp4AllocSt where
  ds : Int → Int
  vs : Int → Int
  alloc : Int
  bm : Bitmap

/-- Innermost `l` loop of `FileHeader::Allocate` (filehdr.cc lines
96-101): claim a data sector at flat index `base*32+l`, record it in
`virDataSectors[++allocated]`, assert the claim succeeded. -/
def mp4AllocL (nS base : Int) (st : Mp4AllocSt) (l : Int) :
    Nat → Option Mp4AllocSt
  | 0 => some st
  | rem + 1 =>
    if l < 32 ∧ st.alloc < nS then
      let p := findAndSet st.bm
      let idx := base * 32 + l
      let ds1 := updF st.ds idx p.1
      let alloc1 := st.alloc + 1
      let vs1 := updF st.vs alloc1 idx
      if ds1 idx = EmptyBlock then none
      else mp4AllocL nS base ⟨ds1, vs1, alloc1, p.2⟩ (l + 1) rem
    else some st

/-- Embeds `k` loop of `FileHeader::Allocate` (lines 92-102): claim the level-2
table sector at flat index `base*32+k`, assert, then run the `l` loop. -/
def mp4AllocK (nS base : Int) (st : Mp4AllocSt) (k : Int) :
    Nat → Option Mp4AllocSt
  | 0 => some st
  | rem + 1 =>
    if k < 32 ∧ st.alloc < nS then
      let p := findAndSet st.bm
      let idx := base * 32 + k
      let ds1 := updF st.ds idx p.1
      if ds1 idx = EmptyBlock then none
      else
        match mp4AllocL nS idx ⟨ds1, st.vs, st.alloc, p.2⟩ 1 31 with
        | none => none
        | some st1 => mp4AllocK nS base st1 (k + 1) rem
    else some st

/-- Embeds `j` loop of `FileHeader::Allocate` (lines 88-103). -/
def mp4AllocJ (nS i : Int) (st : Mp4AllocSt) (j : Int) :
    Nat → Option Mp4AllocSt
  | 0 => some st
  | rem + 1 =>
    if j < 32 ∧ st.alloc < nS then
      let p := findAndSet st.bm
      let idx := i * 32 + j
      let ds1 := updF st.ds idx p.1
      if ds1 idx = EmptyBlock then none
      else
        match mp4AllocK nS idx ⟨ds1, st.vs, st.alloc, p.2⟩ 1 31 with
        | none => none
        | some st1 => mp4AllocJ nS i st1 (j + 1) rem
    else some st

/-- Outer `i` loop of `FileHeader::Allocate` (lines 83-104), `i` from 1
to `NumIndirect - 1`. -/
def mp4AllocI (nS : Int) (st : Mp4AllocSt) (i : Int) :
    Nat → Option Mp4AllocSt
  | 0 => some st
  | rem + 1 =>
    if i < 30 ∧ st.alloc < nS then
      let p := findAndSet st.bm
      let ds1 := updF st.ds i p.1
      if ds1 i = EmptyBlock then none
      else
        match mp4AllocJ nS i ⟨ds1, st.vs, st.alloc, p.2⟩ 1 31 with
        | none => none
        | some st1 => mp4AllocI nS st1 (i + 1) rem
    else some st

/-- Embeds `FileHeader::Allocate(freeMap, fileSize)` of the MP4 variant
(filehdr.cc lines 76-107): set `numBytes`/`numSectors`, fail (`FALSE`)
when the free count is short, otherwise run the four nested loops. -/
def mp4Allocate (h : FileHeaderT) (b : Bitmap) (fileSize : Int) :
    Option (Bool × FileHeaderT × Bitmap) :=
  let nS := divRoundUp fileSize SectorSize
  let h0 := { h with numBytes := fileSize, numSectors := nS }
  if numClear b < nS then some (false, h0, b)
  else
    match mp4AllocI nS ⟨h0.dataSectors, h0.virDataSectors, 0, b⟩ 1 29 with
    | none => none
    | some st =>
      some (true, { h0 with dataSectors := st.ds, virDataSectors := st.vs },
            st.bm)

/-- Materialize a 32-word write buffer. -/
def matBuf (f : Int → Int) : List Int :=
  (List.range 32).map (fun m => f (Int.ofNat m))

/-- Innermost `k` loop of `FileHeader::WriteBack` (filehdr.cc lines
243-251): note the loop condition and the target sector use the flat
index `(i*32+j)+k` while the buffer is filled from
`((i*32+j)*32+k)*32+l`, exactly as in the source. -/
def mp4wbK (h : FileHeaderT) (d : Disk) (i j k : Int) :
    Nat → Disk
  | 0 => d
  | rem + 1 =>
    if k < 32 ∧ h.dataSectors ((i * 32 + j) + k) ≠ EmptyBlock then
      let buf := (List.range' 1 31).foldl
        (fun f l => updF f (Int.ofNat l)
          (h.dataSectors (((i * 32 + j) * 32 + k) * 32 + Int.ofNat l)))
        (fun _ => -1)
      let d1 := writeSector d (h.dataSectors ((i * 32 + j) + k)) (matBuf buf)
      mp4wbK h d1 i j (k + 1) rem
    else d

/-- Embeds `j` loop of `FileHeader::WriteBack` (lines 234-252). -/
def mp4wbJ (h : FileHeaderT) (d : Disk) (i j : Int) :
    Nat → Disk
  | 0 => d
  | rem + 1 =>
    if j < 32 ∧ h.dataSectors (i * 32 + j) ≠ EmptyBlock then
      let buf := (List.range' 1 31).foldl
        (fun f k => updF f (Int.ofNat k)
          (h.dataSectors ((i * 32 + j) * 32 + Int.ofNat k)))
        (fun _ => -1)
      let d1 := writeSector d (h.dataSectors (i * 32 + j)) (matBuf buf)
      let d2 := mp4wbK h d1 i j 1 31
      mp4wbJ h d2 i (j + 1) rem
    else d

/-- Outer `i` loop of `FileHeader::WriteBack` (lines 225-253). -/
def mp4wbI (h : FileHeaderT) (d : Disk) (i : Int) :
    Nat → Disk
  | 0 => d
  | rem + 1 =>
    if i < 30 ∧ h.dataSectors i ≠ EmptyBlock then
      let buf := (List.range' 1 31).foldl
        (fun f j => updF f (Int.ofNat j)
          (h.dataSectors (32 * i + Int.ofNat j)))
        (fun _ => -1)
      let d1 := writeSector d (h.dataSectors i) (matBuf buf)
      let d2 := mp4wbJ h d1 i 1 31
      mp4wbI h d2 (i + 1) rem
    else d

/-- Embeds `FileHeader::WriteBack(sector)` of the MP4 variant (filehdr.cc
lines 205-254): the root buffer holds `numBytes`, `numSectors` and the
root pointers at words `i + 2`, then the populated tree levels are
written out. -/
def mp4WriteBack (h : FileHeaderT) (d : Disk) (sector : Int) : Disk :=
  let buf := (List.range' 1 29).foldl
    (fun f i => updF f (Int.ofNat i + 2) (h.dataSectors (Int.ofNat i)))
    (updF (updF (fun _ => -1) 0 h.numBytes) 1 h.numSectors)
  let d1 := writeSector d sector (matBuf buf)
  mp4wbI h d1 1 29

/-- Fetch state of `FileHeader::FetchFrom`: the two arrays being
rebuilt and the `virIdx` counter. -/
structure Mp4FetchSt where
  ds : Int → Int
  vs : Int → Int
  virIdx : Int

/-- Innermost `k` loop of `FileHeader::FetchFrom` (filehdr.cc lines
184-193): reads the sector named by the flat index `(i*32+j)+k` (the
source's index arithmetic), copies its words to `((i*32+j)+k)+l`, and
records each of the 31 targets in `virDataSectors[++virIdx]`. -/
def mp4ffK (d : Disk) (i j : Int) (st : Mp4FetchSt) (k : Int) :
    Nat → Mp4FetchSt
  | 0 => st
  | rem + 1 =>
    if k < 32 ∧ st.ds ((i * 32 + j) + k) ≠ EmptyBlock then
      let data := readW d (st.ds ((i * 32 + j) + k))
      let st1 := (List.range' 1 31).foldl
        (fun (s : Mp4FetchSt) l =>
          let tgt := ((i * 32 + j) + k) + Int.ofNat l
          let vi := s.virIdx + 1
          ⟨updF s.ds tgt (data (Int.ofNat l)), updF s.vs vi tgt, vi⟩)
        st
      mp4ffK d i j st1 (k + 1) rem
    else st

/-- Embeds `j` loop of `FileHeader::FetchFrom` (lines 178-194): copies the
child table's words to flat indices `(i*32+j)+k` (the source's index
arithmetic). -/
def mp4ffJ (d : Disk) (i : Int) (st : Mp4FetchSt) (j : Int) :
    Nat → Mp4FetchSt
  | 0 => st
  | rem + 1 =>
    if j < 32 ∧ st.ds (i * 32 + j) ≠ EmptyBlock then
      let data := readW d (st.ds (i * 32 + j))
      let ds1 := (List.range' 1 31).foldl
        (fun f k => updF f ((i * 32 + j) + Int.ofNat k) (data (Int.ofNat k)))
        st.ds
      let st1 := mp4ffK d i j ⟨ds1, st.vs, st.virIdx⟩ 1 31
      mp4ffJ d i st1 (j + 1) rem
    else st

/-- Outer `i` loop of `FileHeader::FetchFrom` (lines 172-195). -/
def mp4ffI (d : Disk) (st : Mp4FetchSt) (i : Int) :
    Nat → Mp4FetchSt
  | 0 => st
  | rem + 1 =>
    if i < 30 ∧ st.ds i ≠ EmptyBlock then
      let data := readW d (st.ds i)
      let ds1 := (List.range' 1 31).foldl
        (fun f j => updF f (32 * i + Int.ofNat j) (data (Int.ofNat j)))
        st.ds
      let st1 := mp4ffJ d i ⟨ds1, st.vs, st.virIdx⟩ 1 31
      mp4ffI d st1 (i + 1) rem
    else st

/-- Embeds `FileHeader::FetchFrom(sector)` of the MP4 variant (filehdr.cc
lines 159-196): both arrays are reset to the sentinel, the root sector
is read — `numBytes` from word 0, `numSectors` from word 1 and the root
pointers from words `1..29` (the source's offsets) — then the populated
levels are pulled in. -/
def mp4FetchFrom (d : Disk) (sector : Int) : FileHeaderT :=
  let data := readW d sector
  let ds1 := (List.range' 1 29).foldl
    (fun f i => updF f (Int.ofNat i) (data (Int.ofNat i)))
    (fun _ => -1)
  let st := mp4ffI d ⟨ds1, fun _ => -1, 0⟩ 1 29
  { numBytes := data 0, numSectors := data 1,
    dataSectors := st.ds, virDataSectors := st.vs }

/-! ### MLFQ scheduler (scheduler.cc of NachOS)

The `Thread` record keeps the fields the scheduler consults (thread.h
is not among the sources; modelled from the spec: identity, mutable
priority, burst-time estimate, waiting-age accumulator; the READY /
RUNNING status flag is not consulted by the queue logic and is left
out). -/

structure Thread where
  tid : Nat
  priority : Int
  burst : Int
  age : Nat
  deriving DecidableEq

/-- Modelled from the spec: the aging threshold (thread.cc is not among
the sources); a thread's waiting age crosses it after 1500 accumulated
units. -/
def ageThreshold : Nat := 1500

/-- Modelled from the spec: `Thread::increaseAge()` (thread.cc is not
among the sources) advances the waiting-age accumulator and reports
whether it just crossed the aging threshold. -/
def increaseAge (t : Thread) : Bool × Thread :=
  (t.age + 1 = ageThreshold, { t with age := t.age + 1 })

/-- Embeds `Scheduler::CompareRR` (scheduler.cc line 40): constant 1. -/
def compareRR (_ _ : Thread) : Int := 1

/-- Embeds `Scheduler::CompareSJF` (line 41-43). -/
def compareSJF (x y : Thread) : Int := x.burst - y.burst

/-- Embeds `Scheduler::ComparePriority` (line 44-46). -/
def comparePri (x y : Thread) : Int := y.priority - x.priority

/-- Modelled from the spec: `SortedList<T>::Insert` (list.h is not
among the sources) keeps the queue ordered by the comparator, placing
the new item before the first element that compares greater and after
all its ties, so insertion order is preserved among equal keys. -/
def sortedInsert (cmp : Thread → Thread → Int) (x : Thread) :
    List Thread → List Thread
  | [] => [x]
  | y :: ys => if cmp x y < 0 then x :: y :: ys else y :: sortedInsert cmp x ys

inductive SchedType where
  | RR
  | SJF
  | Priority
  deriving DecidableEq

structure SchedState where
  l1 : List Thread
  l2 : List Thread
  l3 : List Thread
  schedType : SchedType
  deriving DecidableEq

/-- Embeds `Scheduler::Scheduler()` (lines 32-39): empty bands,
`schedulerType = Priority`. -/
def initSched : SchedState := ⟨[], [], [], .Priority⟩

/-- Embeds `Scheduler::ReadyToRun(thread)` (lines 66-84): classify by current
priority — above 99 into Band 1 (burst-ordered), above 49 into Band 2
(priority-ordered), otherwise Band 3 (`CompareRR`, append). -/
def readyToRun (t : Thread) (s : SchedState) : SchedState :=
  if t.priority > 99 then { s with l1 := sortedInsert compareSJF t s.l1 }
  else if t.priority > 49 then { s with l2 := sortedInsert comparePri t s.l2 }
  else { s with l3 := sortedInsert compareRR t s.l3 }

/-- Embeds `Scheduler::FindNextToRun()` (lines 154-169): pop the front of the
first non-empty band, recording which band supplied the thread in
`schedulerType`; `none` when all three bands are empty. -/
def findNextToRun (s : SchedState) : Option (Thread × SchedState) :=
  match s.l1 with
  | t :: ts => some (t, { s with l1 := ts, schedType := .SJF })
  | [] =>
    match s.l2 with
    | t :: ts => some (t, { s with l2 := ts, schedType := .Priority })
    | [] =>
      match s.l3 with
      | t :: ts => some (t, { s with l3 := ts, schedType := .RR })
      | [] => none

/-- Embeds `Scheduler::isPreemptive()` (lines 93-97): false when the recorded
band is `Priority`, or when it is `SJF` and the Band 1 queue is empty. -/
def isPreemptive (s : SchedState) : Bool :=
  if s.schedType = SchedType.Priority ∨
      (s.schedType = SchedType.SJF ∧ s.l1 = []) then false
  else true

/-- The per-thread step of `Scheduler::ageUpdate` (lines 104-111 etc.):
`increaseAge`, and on a threshold crossing raise the priority by 10. -/
def agedThread (t : Thread) : Thread :=
  let r := increaseAge t
  if r.1 then { r.2 with priority := r.2.priority + 10 } else r.2

/-- First `while` of `Scheduler::ageUpdate` (lines 104-113): drain
Band 1 front to back, re-inserting every (possibly boosted) thread into
the new Band 1 queue. -/
def agePhase1 (l : List Thread) (acc : List Thread) : List Thread :=
  l.foldl (fun a t => sortedInsert compareSJF (agedThread t) a) acc

/-- Second `while` of `Scheduler::ageUpdate` (lines 114-127): drain
Band 2; a thread whose new priority exceeds 99 moves to the new Band 1
queue, the rest rebuild the new Band 2 queue. -/
def agePhase2 (l : List Thread) (acc : List Thread × List Thread) :
    List Thread × List Thread :=
  l.foldl
    (fun a t =>
      if 99 < (agedThread t).priority then
        (sortedInsert compareSJF (agedThread t) a.1, a.2)
      else (a.1, sortedInsert comparePri (agedThread t) a.2))
    acc

/-- Third `while` of `Scheduler::ageUpdate` (lines 128-141): drain
Band 3; a thread whose new priority exceeds 49 moves to the new Band 2
queue, the rest rebuild the new Band 3 queue. -/
def agePhase3 (l : List Thread) (acc : List Thread × List Thread) :
    List Thread × List Thread :=
  l.foldl
    (fun a t =>
      if 49 < (agedThread t).priority then
        (sortedInsert comparePri (agedThread t) a.1, a.2)
      else (a.1, sortedInsert compareRR (agedThread t) a.2))
    acc

/-- Embeds `Scheduler::ageUpdate()` (lines 98-145): rebuild the three bands. -/
def ageUpdate (s : SchedState) : SchedState :=
  let n1 := agePhase1 s.l1 []
  let p2 := agePhase2 s.l2 (n1, [])
  let p3 := agePhase3 s.l3 (p2.2, [])
  ⟨p2.1, p3.1, p3.2, s.schedType⟩

/-! ### Derived predicates and concrete instances used by the claims -/

/-- Band 1 ordering key: non-decreasing burst time (shortest first). -/
def burstLE (a b : Thread) : Prop := a.burst ≤ b.burst

/-- Band 2 ordering key: non-increasing priority. -/
def prioGE (a b : Thread) : Prop := b.priority ≤ a.priority

/-- The band-classification invariant of the three ready queues:
Band 1 holds priorities above 99, Band 2 the range 50–99, Band 3 at
most 49. -/
def bandInv (s : SchedState) : Prop :=
  (∀ t ∈ s.l1, 99 < t.priority) ∧
  (∀ t ∈ s.l2, 49 < t.priority ∧ t.priority ≤ 99) ∧
  (∀ t ∈ s.l3, t.priority ≤ 49)

/-- The queue that priority `p` classifies into (`ReadyToRun`'s
thresholds). -/
def bandQueueOf (s : SchedState) (p : Int) : List Thread :=
  if 99 < p then s.l1 else if 49 < p then s.l2 else s.l3

/-- What holds after `ageUpdate`: the band invariant, each band's
ordering, every queued thread re-filed into the band its (possibly
boosted) priority maps to, and a threshold crossing boosting the
priority by exactly 10. -/
def agePost (s : SchedState) : Prop :=
  bandInv (ageUpdate s) ∧
  List.Chain' burstLE (ageUpdate s).l1 ∧
  List.Chain' prioGE (ageUpdate s).l2 ∧
  (∀ t : Thread, t ∈ s.l1 ∨ t ∈ s.l2 ∨ t ∈ s.l3 →
    agedThread t ∈ bandQueueOf (ageUpdate s) (agedThread t).priority) ∧
  (∀ t : Thread, (increaseAge t).1 = true →
    (agedThread t).priority = t.priority + 10)

/-- A well-formed one-data-sector MP4 header: the tree path
`dataSectors[1] = 2` (level-0 table), `dataSectors[33] = 3`,
`dataSectors[1057] = 4`, data slot `dataSectors[33825] = 5`, and
`virDataSectors[0] = 33825` so virtual block 0 resolves to sector 5. -/
def hdrC1 : FileHeaderT :=
  { numBytes := 128, numSectors := 1,
    dataSectors := updF (updF (updF (updF (fun _ => -1) 1 2) 33 3) 1057 4) 33825 5,
    virDataSectors := updF (fun _ => -1) 0 33825 }

/-- The header produced by the linked-variant `Allocate` of a 128-byte
file from a fully free 32-sector bitmap. -/
def fhC2 : FileHeaderL :=
  { numBytes := 128, numSectors := 1, nextBlock := -1,
    dataSectors := 0 :: List.replicate 28 (-1), nxtPtr := none }

/-- The bitmap after that allocation: sector 0 used, 31 free. -/
def bmC2 : Bitmap := ⟨true :: List.replicate 31 false⟩

/-- A doubly-indirect block with a single child at sector 5. -/
def blkC5 : List Int := 5 :: List.replicate 31 (-1)

/-- A disk whose sector 5 holds the child single-indirect block naming
data sector 7. -/
def diskC5 : Disk :=
  fun s => if s = 5 then 7 :: List.replicate 31 (-1) else List.replicate 32 (-1)

/-- A 10-sector bitmap with exactly sectors 5 and 7 marked used. -/
def bmC5 : Bitmap :=
  ⟨[false, false, false, false, false, true, false, true, false, false]⟩

/-- Concrete scheduler state for exercising `ageUpdate`. -/
def s8w : SchedState :=
  ⟨[⟨1, 100, 5, 0⟩], [⟨2, 60, 3, 1499⟩], [⟨3, 10, 2, 0⟩], .Priority⟩

/-- The header state left behind by a failed linked-variant
`Allocate(freeMap, fs)`: `numBytes`/`numSectors` are set before the
free-count check, nothing else changes. -/
def fhFail (fs : Int) : FileHeaderL :=
  { fhInit with numBytes := fs, numSectors := divRoundUp fs SectorSize }

/-! ## Theorems -/

/-- Free counts are never negative. -/
theorem numClear_nonneg (b : Bitmap) : 0 ≤ numClear b :=
  Int.ofNat_nonneg _

/-- A `directAllocLoop` whose demand is already met returns its state
unchanged. -/
theorem directAllocLoop_done (n : Int) (sl : List Int) (b : Bitmap)
    (alloc : Int) (i : Nat) (rem : Nat) (h : ¬ alloc < n) :
    directAllocLoop n sl b alloc i rem = (sl, alloc, b) := by
  cases rem <;> simp [directAllocLoop, h]

/-- An `mp4AllocI` whose demand is already met returns its state
unchanged. -/
theorem mp4AllocI_done (nS : Int) (st : Mp4AllocSt) (i : Int)
    (rem : Nat) (h : ¬ st.alloc < nS) :
    mp4AllocI nS st i rem = some st := by
  cases rem <;> simp [mp4AllocI, h]

/-- Claim C10: `FileHeader::Allocate` with `fileSize = 0` succeeds in
both variants, records `numBytes = 0` and `numSectors = 0`, claims no
sectors and leaves the bitmap — hence its free count — unchanged. -/
theorem c10_allocate_zero (b : Bitmap) :
    fhAllocate fhInit b 0 =
      some (true, { fhInit with numBytes := 0, numSectors := 0 }, b) ∧
    mp4Allocate mp4Init b 0 =
      some (true, { mp4Init with numBytes := 0, numSectors := 0 }, b) := by
  have hz : divRoundUp 0 SectorSize = 0 := by decide
  have hnc : ¬ numClear b < 0 := by
    have := numClear_nonneg b
    omega
  constructor
  · simp only [fhAllocate, hz, hnc, if_false]
    rw [directAllocLoop_done _ _ _ _ _ _ (by omega)]
    simp
  · simp only [mp4Allocate, hz, hnc, if_false]
    have hst : ¬ (0 : Int) < 0 := by omega
    rw [mp4AllocI_done _ _ _ _ hst]

/-- Claim C3: when the requested sector count exceeds the bitmap's
free count, `SingleIndirectBlock::Allocate` returns `-1` and the
linked-variant `FileHeader::Allocate` returns `FALSE`, neither touching
the bitmap and neither tripping an assertion; in particular with 10
free sectors out of 10, a request for 11 sectors fails and the free
count is still 10. -/
theorem c3_allocation_fails_cleanly :
    (∀ (blk : List Int) (b : Bitmap) (n : Int), numClear b < n →
      sibAllocate blk b n = some (-1, blk, b)) ∧
    (∀ (b : Bitmap) (fs : Int), numClear b < divRoundUp fs SectorSize →
      fhAllocate fhInit b fs = some (false, fhFail fs, b)) ∧
    (numClear ⟨List.replicate 10 false⟩ = 10 ∧
     sibAllocate (List.replicate 32 (-1)) ⟨List.replicate 10 false⟩ 11 =
       some (-1, List.replicate 32 (-1), ⟨List.replicate 10 false⟩)) := by
  refine ⟨?_, ?_, by decide, by decide⟩
  · intro blk b n h
    have h0 : ¬ n < 0 := by
      have := numClear_nonneg b
      omega
    simp [sibAllocate, h0, h]
  · intro b fs h
    simp only [fhAllocate]
    rw [if_pos h]
    rfl

/-- Witness for C3 at concrete inputs: an empty bitmap has no free
sector, so a one-sector request fails in both entry points. -/
theorem c3_allocation_fails_cleanly_witness :
    numClear ⟨[]⟩ < 1 ∧
    sibAllocate [] ⟨[]⟩ 1 = some (-1, [], ⟨[]⟩) ∧
    numClear ⟨[]⟩ < divRoundUp 128 SectorSize ∧
    fhAllocate fhInit ⟨[]⟩ 128 = some (false, fhFail 128, ⟨[]⟩) :=
  ⟨by decide, c3_allocation_fails_cleanly.1 [] ⟨[]⟩ 1 (by decide),
   by decide, c3_allocation_fails_cleanly.2.1 ⟨[]⟩ 128 (by decide)⟩

/-- Claim C2 fails on the code: allocating a one-sector (128-byte)
file from a fully free 32-sector bitmap succeeds and leaves 31 free,
but the linked-variant `Deallocate` then clears all 29 direct slots
unconditionally — passing the sentinel `-1` of the 28 never-allocated
slots to the bitmap's `Clear`, a fatal range violation — so the free
count is never restored to 32. -/
theorem c2_linked_deallocate_aborts :
    fhAllocate fhInit ⟨List.replicate 32 false⟩ 128 =
      some (true, fhC2, bmC2) ∧
    numClear ⟨List.replicate 32 false⟩ = 32 ∧
    numClear bmC2 = 31 ∧
    fhDeallocate fhC2 bmC2 = none :=
  ⟨rfl, by decide, by decide, rfl⟩

/-- Claim C4 fails on the code: after a successful MP4 `Allocate` of a
128-byte file, `Allocate` has filled `virDataSectors` starting at index
1 (`virDataSectors[++allocated]`), leaving `virDataSectors[0] = -1`, so
`ByteToSector(0)` — a valid offset — indexes `dataSectors[-1]`, an
out-of-bounds access rather than a bitmap-marked-used sector. -/
theorem c4_mp4_bytetosector_oob :
    (mp4Allocate mp4Init ⟨List.replicate 32 false⟩ 128).map
      (fun r => r.1) = some true ∧
    (mp4Allocate mp4Init ⟨List.replicate 32 false⟩ 128).map
      (fun r => r.2.1.virDataSectors 0) = some (-1) ∧
    (mp4Allocate mp4Init ⟨List.replicate 32 false⟩ 128).map
      (fun r => mp4ByteToSector r.2.1 0) = some none :=
  ⟨rfl, rfl, rfl⟩

/-- Claim C5 fails on the code: `IndirectBlock::FetchFrom` issues a
disk *write* of the fresh, all-sentinel in-memory block instead of a
read, so `DoublyIndirectBlock::Deallocate` on a block whose child at
sector 5 records data sector 7 destroys the child's on-disk contents
and never clears sector 7: afterwards sector 7 is still marked used,
sector 5 is cleared, and disk sector 5 holds only sentinels. -/
theorem c5_deallocate_fetch_is_a_write :
    (dibDeallocate blkC5 diskC5 bmC5).map
      (fun st => (bmTest st.2 7, bmTest st.2 5, st.1 5)) =
      some (true, false, List.replicate 32 (-1)) ∧
    readW diskC5 5 0 = 7 := by
  constructor <;> rfl

/-- Claim C1 fails on the code: for a well-formed one-sector MP4
header, `WriteBack` to sector 0 of a blank disk followed by `FetchFrom`
of sector 0 into a fresh header preserves `FileLength()` but not
`ByteToSector(0)`: the original header resolves offset 0 to sector 5,
the re-fetched one resolves it to an out-of-bounds sentinel index,
because `WriteBack` stores the root pointers at words `i + 2` while
`FetchFrom` reads them from words `i`, and `FetchFrom` rebuilds
`virDataSectors` with different index arithmetic than `Allocate`. -/
theorem c1_mp4_roundtrip_broken :
    mp4FileLength (mp4FetchFrom (mp4WriteBack hdrC1 diskInit 0) 0) =
      mp4FileLength hdrC1 ∧
    mp4ByteToSector hdrC1 0 = some 5 ∧
    mp4ByteToSector (mp4FetchFrom (mp4WriteBack hdrC1 diskInit 0) 0) 0 =
      none :=
  ⟨rfl, rfl, rfl⟩

/-- Claim C7's counterexample: dispatching the only Band 1 thread
records `SJF` as the favored band and empties the Band 1 queue, and in
that state — favored band Band 1 — `isPreemptive()` returns `false`,
while the claim requires `true` whenever the favored band is Band 1. -/
theorem c7_band1_not_always_preemptive :
    findNextToRun (readyToRun ⟨1, 100, 5, 0⟩ initSched) =
      some (⟨1, 100, 5, 0⟩, ⟨[], [], [], SchedType.SJF⟩) ∧
    isPreemptive ⟨[], [], [], SchedType.SJF⟩ = false := by
  decide

/-- Claim C7, amended: `isPreemptive()` returns `false` exactly when
the favored band is Band 2 (`Priority`), or when it is Band 1 (`SJF`)
and the Band 1 queue is empty; it returns `true` whenever the favored
band is Band 3 (`RR`), or Band 1 with a non-empty queue. -/
theorem c7_isPreemptive_iff (s : SchedState) :
    isPreemptive s = false ↔
      (s.schedType = SchedType.Priority ∨
        (s.schedType = SchedType.SJF ∧ s.l1 = [])) := by
  by_cases h : s.schedType = SchedType.Priority ∨
      (s.schedType = SchedType.SJF ∧ s.l1 = []) <;>
    simp [isPreemptive, h]

end NachOS

namespace NachOS

/-- Reading `List.getD` at an index other than the one being set. -/
theorem getD_set_ne (l : List Int) (i idx : Nat) (v d : Int)
    (h : i ≠ idx) : (l.set i v).getD idx d = l.getD idx d := by
  simp [List.getD_eq_getElem?_getD, List.getElem?_set_ne h]

/-- The allocation loop of `SingleIndirectBlock::Allocate` never
rewrites a slot that is already populated. -/
theorem sibAllocLoop_frame :
    ∀ (rem : Nat) (n : Int) (blk : List Int) (b : Bitmap) (alloc : Int)
      (i : Nat) (res : Int × List Int × Bitmap),
      sibAllocLoop n blk b alloc i rem = some res →
      ∀ idx : Nat, blk.getD idx (-1) ≠ EmptyBlock →
        res.2.1.getD idx (-1) = blk.getD idx (-1) := by
  intro rem
  induction rem with
  | zero =>
    intro n blk b alloc i res hres idx _
    simp only [sibAllocLoop, Option.some.injEq] at hres
    rw [← hres]
  | succ m ih =>
    intro n blk b alloc i res hres idx hidx
    by_cases hc : alloc < n
    · simp only [sibAllocLoop, if_pos hc] at hres
      by_cases hslot : blk.getD i (-1) ≠ EmptyBlock
      · rw [if_pos hslot] at hres
        exact ih n blk b alloc (i + 1) res hres idx hidx
      · rw [if_neg hslot] at hres
        by_cases hp : (findAndSet b).1 = EmptyBlock
        · simp only [hp, if_true] at hres
          exact absurd hres (by simp)
        · simp only [hp, if_false] at hres
          have hne : i ≠ idx := by
            intro he
            rw [he] at hslot
            exact hslot hidx
          have hidx2 : (blk.set i (findAndSet b).1).getD idx (-1) ≠
              EmptyBlock := by
            rw [getD_set_ne blk i idx _ _ hne]
            exact hidx
          have := ih n (blk.set i (findAndSet b).1) (findAndSet b).2
            (alloc + 1) (i + 1) res hres idx hidx2
          rw [this, getD_set_ne blk i idx _ _ hne]
    · simp only [sibAllocLoop, if_neg hc, Option.some.injEq] at hres
      rw [← hres]

/-- Claim C9: `SingleIndirectBlock::Allocate` never overwrites an
already-populated slot — every slot that was not the sentinel before a
successful call holds the same value afterwards, and a slot that
changed must have held the sentinel. -/
theorem c9_sib_allocate_frame (blk : List Int) (b : Bitmap) (n : Int)
    (res : Int × List Int × Bitmap) (hres : sibAllocate blk b n = some res) :
    (∀ idx : Nat, blk.getD idx (-1) ≠ EmptyBlock →
      res.2.1.getD idx (-1) = blk.getD idx (-1)) ∧
    (∀ idx : Nat, res.2.1.getD idx (-1) ≠ blk.getD idx (-1) →
      blk.getD idx (-1) = EmptyBlock) := by
  have frame : ∀ idx : Nat, blk.getD idx (-1) ≠ EmptyBlock →
      res.2.1.getD idx (-1) = blk.getD idx (-1) := by
    unfold sibAllocate at hres
    by_cases h0 : n < 0
    · rw [if_pos h0] at hres
      simp only [Option.some.injEq] at hres
      rw [← hres]
      intro idx _
      rfl
    · rw [if_neg h0] at hres
      by_cases h1 : numClear b < n
      · rw [if_pos h1] at hres
        simp only [Option.some.injEq] at hres
        rw [← hres]
        intro idx _
        rfl
      · rw [if_neg h1] at hres
        exact sibAllocLoop_frame 32 n blk b 0 0 res hres
  refine ⟨frame, fun idx hne => ?_⟩
  by_contra hcon
  exact hne (frame idx hcon)

/-- Witness for C9: a block whose slot 0 already holds sector 5
keeps that value across a successful two-sector allocation. -/
theorem c9_sib_allocate_frame_witness :
    sibAllocate (5 :: List.replicate 31 (-1)) ⟨List.replicate 4 false⟩ 2 =
      some (2, 5 :: 0 :: 1 :: List.replicate 29 (-1),
            ⟨[true, true, false, false]⟩) ∧
    (5 :: List.replicate 31 (-1) : List Int).getD 0 (-1) ≠ EmptyBlock ∧
    (5 :: 0 :: 1 :: List.replicate 29 (-1) : List Int).getD 0 (-1) =
      (5 :: List.replicate 31 (-1) : List Int).getD 0 (-1) :=
  ⟨by decide, by decide,
   (c9_sib_allocate_frame (5 :: List.replicate 31 (-1))
     ⟨List.replicate 4 false⟩ 2
     (2, 5 :: 0 :: 1 :: List.replicate 29 (-1), ⟨[true, true, false, false]⟩)
     (by decide)).1 0 (by decide)⟩

/-- Because `CompareRR` is constantly 1, Band 3 insertion appends: FIFO. -/
theorem sortedInsert_rr (x : Thread) : ∀ l, sortedInsert compareRR x l = l ++ [x]
  | [] => by simp [sortedInsert]
  | y :: ys => by
    simp only [sortedInsert, compareRR]
    rw [if_neg (by omega)]
    rw [sortedInsert_rr x ys]
    simp

/-- Claim C6: `FindNextToRun` scans Band 1, then Band 2, then Band 3,
removing and returning the front of the first non-empty band and
recording that band; it returns `none` exactly when all bands are
empty.  Consequently a priority-100 thread is returned before a
priority-60 thread regardless of insertion order, and three Band 3
threads come back in strict FIFO order. -/
theorem c6_findNextToRun :
    (∀ s : SchedState,
      (findNextToRun s = none ↔ s.l1 = [] ∧ s.l2 = [] ∧ s.l3 = []) ∧
      (∀ t ts, s.l1 = t :: ts →
        findNextToRun s = some (t, ⟨ts, s.l2, s.l3, SchedType.SJF⟩)) ∧
      (∀ t ts, s.l1 = [] → s.l2 = t :: ts →
        findNextToRun s = some (t, ⟨[], ts, s.l3, SchedType.Priority⟩)) ∧
      (∀ t ts, s.l1 = [] → s.l2 = [] → s.l3 = t :: ts →
        findNextToRun s = some (t, ⟨[], [], ts, SchedType.RR⟩))) ∧
    (∀ hi lo : Thread, hi.priority = 100 → lo.priority = 60 →
      findNextToRun (readyToRun hi (readyToRun lo initSched)) =
        some (hi, ⟨[], [lo], [], SchedType.SJF⟩) ∧
      findNextToRun (readyToRun lo (readyToRun hi initSched)) =
        some (hi, ⟨[], [lo], [], SchedType.SJF⟩)) ∧
    (∀ x y z : Thread, x.priority ≤ 49 → y.priority ≤ 49 → z.priority ≤ 49 →
      ∃ s1 s2 s3,
        findNextToRun (readyToRun z (readyToRun y (readyToRun x initSched))) =
          some (x, s1) ∧
        findNextToRun s1 = some (y, s2) ∧
        findNextToRun s2 = some (z, s3) ∧
        findNextToRun s3 = none) := by
  refine ⟨?_, ?_, ?_⟩
  · intro s
    obtain ⟨q1, q2, q3, ty⟩ := s
    refine ⟨?_, ?_, ?_, ?_⟩
    · cases q1 <;> cases q2 <;> cases q3 <;> simp [findNextToRun]
    · intro t ts h
      simp only at h
      subst h
      rfl
    · intro t ts h1 h2
      simp only at h1 h2
      subst h1
      subst h2
      rfl
    · intro t ts h1 h2 h3
      simp only at h1 h2 h3
      subst h1
      subst h2
      subst h3
      rfl
  · intro hi lo h100 h60
    have e1 : readyToRun lo initSched = ⟨[], [lo], [], .Priority⟩ := by
      unfold readyToRun
      rw [if_neg (by omega), if_pos (by omega)]
      rfl
    have e2 : readyToRun hi ⟨[], [lo], [], .Priority⟩ =
        ⟨[hi], [lo], [], .Priority⟩ := by
      unfold readyToRun
      rw [if_pos (by omega)]
      rfl
    have e3 : readyToRun hi initSched = ⟨[hi], [], [], .Priority⟩ := by
      unfold readyToRun
      rw [if_pos (by omega)]
      rfl
    have e4 : readyToRun lo ⟨[hi], [], [], .Priority⟩ =
        ⟨[hi], [lo], [], .Priority⟩ := by
      unfold readyToRun
      rw [if_neg (by omega), if_pos (by omega)]
      rfl
    rw [e1, e2, e3, e4]
    exact ⟨rfl, rfl⟩
  · intro x y z hx hy hz
    have ex : readyToRun x initSched = ⟨[], [], [x], .Priority⟩ := by
      unfold readyToRun
      rw [if_neg (by omega), if_neg (by omega)]
      rfl
    have ey : readyToRun y ⟨[], [], [x], .Priority⟩ =
        ⟨[], [], [x, y], .Priority⟩ := by
      unfold readyToRun
      rw [if_neg (by omega), if_neg (by omega)]
      simp [sortedInsert_rr]
    have ez : readyToRun z ⟨[], [], [x, y], .Priority⟩ =
        ⟨[], [], [x, y, z], .Priority⟩ := by
      unfold readyToRun
      rw [if_neg (by omega), if_neg (by omega)]
      simp [sortedInsert_rr]
    refine ⟨⟨[], [], [y, z], .RR⟩, ⟨[], [], [z], .RR⟩, ⟨[], [], [], .RR⟩,
      ?_, rfl, rfl, rfl⟩
    rw [ex, ey, ez]
    rfl

/-- Witness for C6 at concrete threads: an empty scheduler yields
`none`; thread 1 (priority 100) beats thread 2 (priority 60); threads
3, 4, 5 (Band 3) come back first-in first-out. -/
theorem c6_findNextToRun_witness :
    findNextToRun initSched = none ∧
    findNextToRun (readyToRun ⟨1, 100, 5, 0⟩ (readyToRun ⟨2, 60, 5, 0⟩
        initSched)) =
      some (⟨1, 100, 5, 0⟩, ⟨[], [⟨2, 60, 5, 0⟩], [], SchedType.SJF⟩) ∧
    (∃ s1 s2 s3,
      findNextToRun (readyToRun ⟨5, 30, 4, 0⟩ (readyToRun ⟨4, 20, 1, 0⟩
          (readyToRun ⟨3, 10, 9, 0⟩ initSched))) =
        some (⟨3, 10, 9, 0⟩, s1) ∧
      findNextToRun s1 = some (⟨4, 20, 1, 0⟩, s2) ∧
      findNextToRun s2 = some (⟨5, 30, 4, 0⟩, s3) ∧
      findNextToRun s3 = none) :=
  ⟨(c6_findNextToRun.1 initSched).1.mpr ⟨rfl, rfl, rfl⟩,
   (c6_findNextToRun.2.1 ⟨1, 100, 5, 0⟩ ⟨2, 60, 5, 0⟩ (by decide)
     (by decide)).1,
   c6_findNextToRun.2.2 ⟨3, 10, 9, 0⟩ ⟨4, 20, 1, 0⟩ ⟨5, 30, 4, 0⟩
     (by decide) (by decide) (by decide)⟩

end NachOS

namespace NachOS

/-- Membership across `sortedInsert`. -/
theorem mem_sortedInsert (cmp : Thread → Thread → Int) (x a : Thread) :
    ∀ l : List Thread, a ∈ sortedInsert cmp x l ↔ a = x ∨ a ∈ l
  | [] => by simp [sortedInsert]
  | y :: ys => by
    simp only [sortedInsert]
    by_cases h : cmp x y < 0
    · rw [if_pos h]
      simp only [List.mem_cons]
    · rw [if_neg h]
      simp only [List.mem_cons, mem_sortedInsert cmp x a ys]
      tauto

/-- Insertion keeps a queue `Chain'`-ordered for any relation the
comparator decides. -/
theorem chain'_sortedInsert (R : Thread → Thread → Prop)
    (cmp : Thread → Thread → Int)
    (h1 : ∀ p q, cmp p q < 0 → R p q)
    (h2 : ∀ p q, ¬ cmp p q < 0 → R q p) (x : Thread) :
    ∀ l : List Thread, List.Chain' R l →
      List.Chain' R (sortedInsert cmp x l)
  | [], _ => by simp [sortedInsert]
  | y :: ys, hl => by
    simp only [sortedInsert]
    by_cases h : cmp x y < 0
    · rw [if_pos h]
      exact List.chain'_cons.mpr ⟨h1 _ _ h, hl⟩
    · rw [if_neg h]
      have hins := chain'_sortedInsert R cmp h1 h2 x ys hl.tail
      refine List.chain'_cons'.mpr ⟨?_, hins⟩
      intro z hz
      cases ys with
      | nil =>
        simp [sortedInsert] at hz
        subst hz
        exact h2 x y h
      | cons w ws =>
        simp only [sortedInsert] at hz
        by_cases h3 : cmp x w < 0
        · rw [if_pos h3] at hz
          simp at hz
          subst hz
          exact h2 x y h
        · rw [if_neg h3] at hz
          simp at hz
          subst hz
          exact (List.chain'_cons.mp hl).1

/-- Aging either keeps the priority or raises it by exactly 10. -/
theorem agedThread_priority (t : Thread) :
    (agedThread t).priority = t.priority ∨
      (agedThread t).priority = t.priority + 10 := by
  unfold agedThread increaseAge
  by_cases h : t.age + 1 = ageThreshold <;> simp [h]

/-- Membership after the Band 1 rebuilding phase. -/
theorem agePhase1_mem (a : Thread) (l : List Thread) :
    ∀ acc, a ∈ agePhase1 l acc ↔
      a ∈ acc ∨ ∃ t, t ∈ l ∧ agedThread t = a := by
  induction l with
  | nil => intro acc; simp [agePhase1]
  | cons t ts ih =>
    intro acc
    rw [show agePhase1 (t :: ts) acc =
      agePhase1 ts (sortedInsert compareSJF (agedThread t) acc) from rfl]
    rw [ih, mem_sortedInsert]
    constructor
    · rintro ((h | h) | ⟨u, hu, ha⟩)
      · exact Or.inr ⟨t, List.mem_cons_self t ts, h.symm⟩
      · exact Or.inl h
      · exact Or.inr ⟨u, List.mem_cons_of_mem t hu, ha⟩
    · rintro (h | ⟨u, hu, ha⟩)
      · exact Or.inl (Or.inr h)
      · rcases List.mem_cons.mp hu with h1 | h1
        · subst h1
          exact Or.inl (Or.inl ha.symm)
        · exact Or.inr ⟨u, h1, ha⟩

/-- Membership in the rebuilt Band 1 queue after phase 2. -/
theorem agePhase2_fst_mem (a : Thread) (l : List Thread) :
    ∀ acc1 acc2, a ∈ (agePhase2 l (acc1, acc2)).1 ↔
      a ∈ acc1 ∨ ∃ t, t ∈ l ∧ agedThread t = a ∧
        99 < (agedThread t).priority := by
  induction l with
  | nil => intro acc1 acc2; simp [agePhase2]
  | cons t ts ih =>
    intro acc1 acc2
    by_cases hp : 99 < (agedThread t).priority
    · rw [show agePhase2 (t :: ts) (acc1, acc2) =
        agePhase2 ts (sortedInsert compareSJF (agedThread t) acc1, acc2) from by
          simp only [agePhase2, List.foldl_cons, if_pos hp]]
      rw [ih, mem_sortedInsert]
      constructor
      · rintro ((h | h) | ⟨u, hu, ha, hup⟩)
        · exact Or.inr ⟨t, List.mem_cons_self t ts, h.symm, hp⟩
        · exact Or.inl h
        · exact Or.inr ⟨u, List.mem_cons_of_mem t hu, ha, hup⟩
      · rintro (h | ⟨u, hu, ha, hup⟩)
        · exact Or.inl (Or.inr h)
        · rcases List.mem_cons.mp hu with h1 | h1
          · subst h1
            exact Or.inl (Or.inl ha.symm)
          · exact Or.inr ⟨u, h1, ha, hup⟩
    · rw [show agePhase2 (t :: ts) (acc1, acc2) =
        agePhase2 ts (acc1, sortedInsert comparePri (agedThread t) acc2) from by
          simp only [agePhase2, List.foldl_cons, if_neg hp]]
      rw [ih]
      constructor
      · rintro (h | ⟨u, hu, ha, hup⟩)
        · exact Or.inl h
        · exact Or.inr ⟨u, List.mem_cons_of_mem t hu, ha, hup⟩
      · rintro (h | ⟨u, hu, ha, hup⟩)
        · exact Or.inl h
        · rcases List.mem_cons.mp hu with h1 | h1
          · subst h1
            exact absurd hup hp
          · exact Or.inr ⟨u, h1, ha, hup⟩

/-- Membership in the rebuilt Band 2 queue after phase 2. -/
theorem agePhase2_snd_mem (a : Thread) (l : List Thread) :
    ∀ acc1 acc2, a ∈ (agePhase2 l (acc1, acc2)).2 ↔
      a ∈ acc2 ∨ ∃ t, t ∈ l ∧ agedThread t = a ∧
        ¬ 99 < (agedThread t).priority := by
  induction l with
  | nil => intro acc1 acc2; simp [agePhase2]
  | cons t ts ih =>
    intro acc1 acc2
    by_cases hp : 99 < (agedThread t).priority
    · rw [show agePhase2 (t :: ts) (acc1, acc2) =
        agePhase2 ts (sortedInsert compareSJF (agedThread t) acc1, acc2) from by
          simp only [agePhase2, List.foldl_cons, if_pos hp]]
      rw [ih]
      constructor
      · rintro (h | ⟨u, hu, ha, hup⟩)
        · exact Or.inl h
        · exact Or.inr ⟨u, List.mem_cons_of_mem t hu, ha, hup⟩
      · rintro (h | ⟨u, hu, ha, hup⟩)
        · exact Or.inl h
        · rcases List.mem_cons.mp hu with h1 | h1
          · subst h1
            exact absurd hp hup
          · exact Or.inr ⟨u, h1, ha, hup⟩
    · rw [show agePhase2 (t :: ts) (acc1, acc2) =
        agePhase2 ts (acc1, sortedInsert comparePri (agedThread t) acc2) from by
          simp only [agePhase2, List.foldl_cons, if_neg hp]]
      rw [ih, mem_sortedInsert]
      constructor
      · rintro ((h | h) | ⟨u, hu, ha, hup⟩)
        · exact Or.inr ⟨t, List.mem_cons_self t ts, h.symm, hp⟩
        · exact Or.inl h
        · exact Or.inr ⟨u, List.mem_cons_of_mem t hu, ha, hup⟩
      · rintro (h | ⟨u, hu, ha, hup⟩)
        · exact Or.inl (Or.inr h)
        · rcases List.mem_cons.mp hu with h1 | h1
          · subst h1
            exact Or.inl (Or.inl ha.symm)
          · exact Or.inr ⟨u, h1, ha, hup⟩

/-- Membership in the rebuilt Band 2 queue after phase 3. -/
theorem agePhase3_fst_mem (a : Thread) (l : List Thread) :
    ∀ acc1 acc2, a ∈ (agePhase3 l (acc1, acc2)).1 ↔
      a ∈ acc1 ∨ ∃ t, t ∈ l ∧ agedThread t = a ∧
        49 < (agedThread t).priority := by
  induction l with
  | nil => intro acc1 acc2; simp [agePhase3]
  | cons t ts ih =>
    intro acc1 acc2
    by_cases hp : 49 < (agedThread t).priority
    · rw [show agePhase3 (t :: ts) (acc1, acc2) =
        agePhase3 ts (sortedInsert comparePri (agedThread t) acc1, acc2) from by
          simp only [agePhase3, List.foldl_cons, if_pos hp]]
      rw [ih, mem_sortedInsert]
      constructor
      · rintro ((h | h) | ⟨u, hu, ha, hup⟩)
        · exact Or.inr ⟨t, List.mem_cons_self t ts, h.symm, hp⟩
        · exact Or.inl h
        · exact Or.inr ⟨u, List.mem_cons_of_mem t hu, ha, hup⟩
      · rintro (h | ⟨u, hu, ha, hup⟩)
        · exact Or.inl (Or.inr h)
        · rcases List.mem_cons.mp hu with h1 | h1
          · subst h1
            exact Or.inl (Or.inl ha.symm)
          · exact Or.inr ⟨u, h1, ha, hup⟩
    · rw [show agePhase3 (t :: ts) (acc1, acc2) =
        agePhase3 ts (acc1, sortedInsert compareRR (agedThread t) acc2) from by
          simp only [agePhase3, List.foldl_cons, if_neg hp]]
      rw [ih]
      constructor
      · rintro (h | ⟨u, hu, ha, hup⟩)
        · exact Or.inl h
        · exact Or.inr ⟨u, List.mem_cons_of_mem t hu, ha, hup⟩
      · rintro (h | ⟨u, hu, ha, hup⟩)
        · exact Or.inl h
        · rcases List.mem_cons.mp hu with h1 | h1
          · subst h1
            exact absurd hup hp
          · exact Or.inr ⟨u, h1, ha, hup⟩

/-- Membership in the rebuilt Band 3 queue after phase 3. -/
theorem agePhase3_snd_mem (a : Thread) (l : List Thread) :
    ∀ acc1 acc2, a ∈ (agePhase3 l (acc1, acc2)).2 ↔
      a ∈ acc2 ∨ ∃ t, t ∈ l ∧ agedThread t = a ∧
        ¬ 49 < (agedThread t).priority := by
  induction l with
  | nil => intro acc1 acc2; simp [agePhase3]
  | cons t ts ih =>
    intro acc1 acc2
    by_cases hp : 49 < (agedThread t).priority
    · rw [show agePhase3 (t :: ts) (acc1, acc2) =
        agePhase3 ts (sortedInsert comparePri (agedThread t) acc1, acc2) from by
          simp only [agePhase3, List.foldl_cons, if_pos hp]]
      rw [ih]
      constructor
      · rintro (h | ⟨u, hu, ha, hup⟩)
        · exact Or.inl h
        · exact Or.inr ⟨u, List.mem_cons_of_mem t hu, ha, hup⟩
      · rintro (h | ⟨u, hu, ha, hup⟩)
        · exact Or.inl h
        · rcases List.mem_cons.mp hu with h1 | h1
          · subst h1
            exact absurd hp hup
          · exact Or.inr ⟨u, h1, ha, hup⟩
    · rw [show agePhase3 (t :: ts) (acc1, acc2) =
        agePhase3 ts (acc1, sortedInsert compareRR (agedThread t) acc2) from by
          simp only [agePhase3, List.foldl_cons, if_neg hp]]
      rw [ih, mem_sortedInsert]
      constructor
      · rintro ((h | h) | ⟨u, hu, ha, hup⟩)
        · exact Or.inr ⟨t, List.mem_cons_self t ts, h.symm, hp⟩
        · exact Or.inl h
        · exact Or.inr ⟨u, List.mem_cons_of_mem t hu, ha, hup⟩
      · rintro (h | ⟨u, hu, ha, hup⟩)
        · exact Or.inl (Or.inr h)
        · rcases List.mem_cons.mp hu with h1 | h1
          · subst h1
            exact Or.inl (Or.inl ha.symm)
          · exact Or.inr ⟨u, h1, ha, hup⟩

end NachOS

namespace NachOS

/-- Phase 1 keeps the new Band 1 queue burst-ordered. -/
theorem agePhase1_chain (l : List Thread) :
    ∀ acc, List.Chain' burstLE acc →
      List.Chain' burstLE (agePhase1 l acc) := by
  induction l with
  | nil => intro acc h; simpa [agePhase1] using h
  | cons t ts ih =>
    intro acc h
    rw [show agePhase1 (t :: ts) acc =
      agePhase1 ts (sortedInsert compareSJF (agedThread t) acc) from rfl]
    apply ih
    refine chain'_sortedInsert burstLE compareSJF ?_ ?_ _ _ h
    · intro p q hpq
      unfold compareSJF at hpq
      unfold burstLE
      omega
    · intro p q hpq
      unfold compareSJF at hpq
      unfold burstLE
      omega

/-- Phase 2 keeps the new Band 1 queue burst-ordered. -/
theorem agePhase2_chain_fst (l : List Thread) :
    ∀ acc1 acc2, List.Chain' burstLE acc1 →
      List.Chain' burstLE (agePhase2 l (acc1, acc2)).1 := by
  induction l with
  | nil => intro acc1 acc2 h; simpa [agePhase2] using h
  | cons t ts ih =>
    intro acc1 acc2 h
    by_cases hp : 99 < (agedThread t).priority
    · rw [show agePhase2 (t :: ts) (acc1, acc2) =
        agePhase2 ts (sortedInsert compareSJF (agedThread t) acc1, acc2) from by
          simp only [agePhase2, List.foldl_cons, if_pos hp]]
      apply ih
      refine chain'_sortedInsert burstLE compareSJF ?_ ?_ _ _ h
      · intro p q hpq
        unfold compareSJF at hpq
        unfold burstLE
        omega
      · intro p q hpq
        unfold compareSJF at hpq
        unfold burstLE
        omega
    · rw [show agePhase2 (t :: ts) (acc1, acc2) =
        agePhase2 ts (acc1, sortedInsert comparePri (agedThread t) acc2) from by
          simp only [agePhase2, List.foldl_cons, if_neg hp]]
      exact ih acc1 _ h

/-- Phase 2 keeps the new Band 2 queue priority-ordered. -/
theorem agePhase2_chain_snd (l : List Thread) :
    ∀ acc1 acc2, List.Chain' prioGE acc2 →
      List.Chain' prioGE (agePhase2 l (acc1, acc2)).2 := by
  induction l with
  | nil => intro acc1 acc2 h; simpa [agePhase2] using h
  | cons t ts ih =>
    intro acc1 acc2 h
    by_cases hp : 99 < (agedThread t).priority
    · rw [show agePhase2 (t :: ts) (acc1, acc2) =
        agePhase2 ts (sortedInsert compareSJF (agedThread t) acc1, acc2) from by
          simp only [agePhase2, List.foldl_cons, if_pos hp]]
      exact ih _ acc2 h
    · rw [show agePhase2 (t :: ts) (acc1, acc2) =
        agePhase2 ts (acc1, sortedInsert comparePri (agedThread t) acc2) from by
          simp only [agePhase2, List.foldl_cons, if_neg hp]]
      apply ih
      refine chain'_sortedInsert prioGE comparePri ?_ ?_ _ _ h
      · intro p q hpq
        unfold comparePri at hpq
        unfold prioGE
        omega
      · intro p q hpq
        unfold comparePri at hpq
        unfold prioGE
        omega

/-- Phase 3 keeps the new Band 2 queue priority-ordered. -/
theorem agePhase3_chain_fst (l : List Thread) :
    ∀ acc1 acc2, List.Chain' prioGE acc1 →
      List.Chain' prioGE (agePhase3 l (acc1, acc2)).1 := by
  induction l with
  | nil => intro acc1 acc2 h; simpa [agePhase3] using h
  | cons t ts ih =>
    intro acc1 acc2 h
    by_cases hp : 49 < (agedThread t).priority
    · rw [show agePhase3 (t :: ts) (acc1, acc2) =
        agePhase3 ts (sortedInsert comparePri (agedThread t) acc1, acc2) from by
          simp only [agePhase3, List.foldl_cons, if_pos hp]]
      apply ih
      refine chain'_sortedInsert prioGE comparePri ?_ ?_ _ _ h
      · intro p q hpq
        unfold comparePri at hpq
        unfold prioGE
        omega
      · intro p q hpq
        unfold comparePri at hpq
        unfold prioGE
        omega
    · rw [show agePhase3 (t :: ts) (acc1, acc2) =
        agePhase3 ts (acc1, sortedInsert compareRR (agedThread t) acc2) from by
          simp only [agePhase3, List.foldl_cons, if_neg hp]]
      exact ih acc1 _ h

/-- Claim C8: if the three queues satisfy the band-classification
invariant, then after `ageUpdate` the invariant still holds, Band 1 is
still burst-ordered and Band 2 priority-ordered, every queued thread is
re-filed into the band its new priority maps to, and a thread whose age
crossed the threshold had its priority raised by exactly the fixed
increment 10. -/
theorem c8_ageUpdate_invariant (s : SchedState) (h : bandInv s) :
    agePost s := by
  obtain ⟨h1, h2, h3⟩ := h
  have hge : ∀ t : Thread, t.priority ≤ (agedThread t).priority := by
    intro t
    rcases agedThread_priority t with hh | hh <;> omega
  have hle : ∀ t : Thread, (agedThread t).priority ≤ t.priority + 10 := by
    intro t
    rcases agedThread_priority t with hh | hh <;> omega
  have e1 : (ageUpdate s).l1 =
      (agePhase2 s.l2 (agePhase1 s.l1 [], [])).1 := rfl
  have e2 : (ageUpdate s).l2 =
      (agePhase3 s.l3 ((agePhase2 s.l2 (agePhase1 s.l1 [], [])).2, [])).1 := rfl
  have e3 : (ageUpdate s).l3 =
      (agePhase3 s.l3 ((agePhase2 s.l2 (agePhase1 s.l1 [], [])).2, [])).2 := rfl
  refine ⟨⟨?_, ?_, ?_⟩, ?_, ?_, ?_, ?_⟩
  · intro a ha
    rw [e1, agePhase2_fst_mem] at ha
    rcases ha with ha | ⟨u, hu, hua, hup⟩
    · rw [agePhase1_mem] at ha
      rcases ha with ha | ⟨u, hu, hua⟩
      · simp at ha
      · have := h1 u hu
        have := hge u
        rw [← hua]
        omega
    · rw [← hua]
      exact hup
  · intro a ha
    rw [e2, agePhase3_fst_mem] at ha
    rcases ha with ha | ⟨u, hu, hua, hup⟩
    · rw [agePhase2_snd_mem] at ha
      rcases ha with ha | ⟨u, hu, hua, hup⟩
      · simp at ha
      · have := h2 u hu
        have := hge u
        rw [← hua]
        constructor <;> omega
    · have := h3 u hu
      have := hle u
      rw [← hua]
      constructor <;> omega
  · intro a ha
    rw [e3, agePhase3_snd_mem] at ha
    rcases ha with ha | ⟨u, hu, hua, hup⟩
    · simp at ha
    · rw [← hua]
      omega
  · rw [e1]
    apply agePhase2_chain_fst
    apply agePhase1_chain
    exact List.chain'_nil
  · rw [e2]
    apply agePhase3_chain_fst
    apply agePhase2_chain_snd
    exact List.chain'_nil
  · intro t ht
    rcases ht with ht | ht | ht
    · have hgt : 99 < (agedThread t).priority := by
        have := h1 t ht
        have := hge t
        omega
      unfold bandQueueOf
      rw [if_pos hgt, e1, agePhase2_fst_mem]
      left
      rw [agePhase1_mem]
      right
      exact ⟨t, ht, rfl⟩
    · have hb := h2 t ht
      by_cases hgt : 99 < (agedThread t).priority
      · unfold bandQueueOf
        rw [if_pos hgt, e1, agePhase2_fst_mem]
        right
        exact ⟨t, ht, rfl, hgt⟩
      · have h49 : 49 < (agedThread t).priority := by
          have := hge t
          omega
        unfold bandQueueOf
        rw [if_neg hgt, if_pos h49, e2, agePhase3_fst_mem]
        left
        rw [agePhase2_snd_mem]
        right
        exact ⟨t, ht, rfl, hgt⟩
    · have hb := h3 t ht
      have h59 : (agedThread t).priority ≤ 59 := by
        have := hle t
        omega
      by_cases h49 : 49 < (agedThread t).priority
      · unfold bandQueueOf
        rw [if_neg (by omega), if_pos h49, e2, agePhase3_fst_mem]
        right
        exact ⟨t, ht, rfl, h49⟩
      · unfold bandQueueOf
        rw [if_neg (by omega), if_neg h49, e3, agePhase3_snd_mem]
        right
        exact ⟨t, ht, rfl, h49⟩
  · intro t hc
    simp only [increaseAge] at hc
    rw [decide_eq_true_iff] at hc
    simp [agedThread, increaseAge, hc]

/-- Witness for C8: a state with one thread per band (priorities 100,
60 and 10, the Band 2 thread about to cross the aging threshold)
satisfies the band invariant, so `ageUpdate` preserves it. -/
theorem c8_ageUpdate_invariant_witness : bandInv s8w ∧ agePost s8w :=
  ⟨by unfold bandInv; decide, c8_ageUpdate_invariant s8w (by unfold bandInv; decide)⟩

end NachOS
